import Mathlib

/-!
# NekoSystem: the OS-version probe and its neighbours

A shallow embedding of `neko::system::getOsVersion` in its two build variants
(`platform_unix.cpp`, `platform_windows.cpp`), together with the C library
pieces those bodies call (`std::string(const char*)`, `snprintf` with the
`%lu` conversion).  The operating-system calls `uname` and `GetVersionEx` are
opaque collaborators: the value they return and the structure as they leave it
are the input of the model.

A `char` is a `Char`, a character buffer and a `std::string` are `List Char`.
-/

namespace NekoSystem

/-! ## C strings -/

/-- The terminator of a C string. -/
def NUL : Char := Char.ofNat 0

/-- The constructor `std::string(const char*)`: the characters that stand
before the first terminator of the buffer (a buffer without a terminator,
which the C++ would read past, is taken whole). -/
def stdString (p : List Char) : List Char :=
  p.takeWhile (fun c => c != NUL)

/-- The test's `std::any_of(version.begin(), version.end(), ::isdigit)`. -/
def hasDigit (s : List Char) : Bool :=
  s.any Char.isDigit

/-! ## Decimal rendering and `snprintf` -/

/-- The decimal numeral of a natural number, most significant digit first. -/
def decimal (n : Nat) : List Char :=
  Nat.toDigits 10 n

/-- Width in bits of `unsigned long` under the Windows ABI (`DWORD`). -/
def ULONG_WIDTH : Nat := 32

/-- The output of a `printf`-family format: `%lu` renders the next argument as
an `unsigned long` in decimal, `%%` is a percent sign, every other character
is copied. -/
def vformat : List Char → List Nat → List Char
  | [], _ => []
  | '%' :: 'l' :: 'u' :: rest, a :: args => decimal (a % 2 ^ ULONG_WIDTH) ++ vformat rest args
  | '%' :: '%' :: rest, args => '%' :: vformat rest args
  | c :: rest, args => c :: vformat rest args

/-- The buffer after `snprintf(buf, size, fmt, args...)`: at most `size - 1`
characters of the formatted output, then a terminator, the rest of the buffer
untouched; nothing is written when `size` is zero. -/
def snprintf (buf : List Char) (size : Nat) (fmt : List Char) (args : List Nat) : List Char :=
  if size = 0 then buf
  else
    let written := (vformat fmt args).take (size - 1)
    written ++ NUL :: buf.drop (written.length + 1)

/-! ## `platform_unix.cpp` -/

namespace Unix

/-- The `struct utsname` of `<sys/utsname.h>`: five character arrays. -/
structure utsname where
  sysname : List Char
  nodename : List Char
  release : List Char
  version : List Char
  machine : List Char

/-- What one call `uname(&uts)` did: its return value and `uts` afterwards. -/
structure UnameOutcome where
  ret : Int
  uts : utsname

/-- The Unix body of `getOsVersion`. -/
def getOsVersion (uname : UnameOutcome) : List Char :=
  if uname.ret == 0 then
    stdString uname.uts.release
  else
    "unknown".toList

end Unix

/-! ## `platform_windows.cpp` -/

namespace Windows

/-- The fields of `OSVERSIONINFOEX` that the body reads or writes
(each a `DWORD`). -/
structure OSVERSIONINFOEX where
  dwOSVersionInfoSize : Nat
  dwMajorVersion : Nat
  dwMinorVersion : Nat
  dwBuildNumber : Nat

/-- What one call `GetVersionEx(&info)` did: its `BOOL` return value (zero is
failure) and `info` afterwards. -/
structure GetVersionExOutcome where
  ret : Int
  info : OSVERSIONINFOEX

/-- The Windows body of `getOsVersion`. -/
def getOsVersion (probe : GetVersionExOutcome) : List Char :=
  if probe.ret != 0 then
    let buf : List Char := List.replicate 64 NUL
    let buf := snprintf buf buf.length "%lu.%lu.%lu".toList
      [probe.info.dwMajorVersion, probe.info.dwMinorVersion, probe.info.dwBuildNumber]
    stdString buf
  else
    "unknown".toList

end Windows

/-! ## Reading a version string back -/

/-- The fields of a string cut at every occurrence of `sep`. -/
def splitOn (sep : Char) : List Char → List (List Char)
  | [] => [[]]
  | c :: cs =>
    if c = sep then [] :: splitOn sep cs
    else
      match splitOn sep cs with
      | [] => [[c]]
      | f :: fs => (c :: f) :: fs

/-- Reads digits left to right onto an accumulator; `none` at a character
that is no digit. -/
def parseDecimalAux (acc : Nat) : List Char → Option Nat
  | [] => some acc
  | c :: cs =>
    if c.isDigit then parseDecimalAux (acc * 10 + (c.toNat - 48)) cs else none

/-- The number a non-empty run of decimal digits denotes. -/
def parseDecimal (s : List Char) : Option Nat :=
  if s = [] then none else parseDecimalAux 0 s

/-- A numeral without a leading zero: it is `0` itself or does not start
with the digit zero. -/
def noLeadingZero (s : List Char) : Bool :=
  s == ['0'] || s.head? != some '0'

/-! ## Parts of the repository outside the two platform bodies -/

/-- The host as the path operations see it: which characters it treats as
directory separators, its default temporary directory, and which paths name
a directory. -/
structure Host where
  isSeparator : Char → Bool
  tempDirectoryPath : List Char
  isDirectory : List Char → Bool

/-- Modelled from the spec: `unifiedPath` (the path-normalization primitive
of the utility library, not among the sources) rewrites every host directory
separator to a forward slash and leaves every other character as it is. -/
def unifiedPath (h : Host) (input : List Char) : List Char :=
  input.map (fun c => if h.isSeparator c then '/' else c)

/-- A Windows host: backslash and forward slash both separate directories. -/
def windowsHost : Host where
  isSeparator := fun c => c == Char.ofNat 92 || c == '/'
  tempDirectoryPath := ['C', ':', Char.ofNat 92, 'T', 'e', 'm', 'p']
  isDirectory := fun p => p == ['C', ':', Char.ofNat 92, 'T', 'e', 'm', 'p']

/-- The process-wide temp-directory override: absent means the OS default. -/
structure PlatformState where
  tempOverride : Option (List Char)

/-- Modelled from the spec: `tempFolder()` of `platform.hpp` (not among the
sources) returns the override when one is set and the OS default temporary
directory otherwise, normalized like every path that leaves the component. -/
def tempFolder (h : Host) (st : PlatformState) : List Char :=
  match st.tempOverride with
  | some p => unifiedPath h p
  | none => unifiedPath h h.tempDirectoryPath

/-- Modelled from the spec: `tempFolder(newPath)` of `platform.hpp` (not
among the sources) normalizes `newPath`, stores it as the override and
returns the normalized value; it consults nothing else. -/
def tempFolderSet (h : Host) (newPath : List Char) (_st : PlatformState) :
    List Char × PlatformState :=
  let p := unifiedPath h newPath
  (p, { tempOverride := some p })

/-- The memory snapshot of `memoryinfo.hpp`: two unsigned 64-bit byte counts. -/
structure MemoryInfo where
  totalBytes : Nat
  freeBytes : Nat

/-- Modelled from the spec: `MemoryInfo::toString` of `memoryinfo.hpp` (not
among the sources) converts both fields to whole megabytes by integer
division by 1,048,576 and renders `Total: <T> MB, Free: <F> MB`. -/
def MemoryInfo.toString (m : MemoryInfo) : List Char :=
  "Total: ".toList ++ decimal (m.totalBytes / 1048576) ++ " MB, Free: ".toList
    ++ decimal (m.freeBytes / 1048576) ++ " MB".toList

/-! ## Facts about `decimal` -/

theorem toDigitsCore_acc (fuel : Nat) : ∀ (n : Nat) (acc : List Char),
    Nat.toDigitsCore 10 fuel n acc = Nat.toDigitsCore 10 fuel n [] ++ acc := by
  induction fuel with
  | zero => intro n acc; simp [Nat.toDigitsCore]
  | succ fuel ih =>
    intro n acc
    simp only [Nat.toDigitsCore]
    split
    · simp
    · rw [ih (n / 10) (Nat.digitChar (n % 10) :: acc), ih (n / 10) [Nat.digitChar (n % 10)]]
      simp

theorem toDigitsCore_fuel (f : Nat) : ∀ (g n : Nat) (acc : List Char), n < f → n < g →
    Nat.toDigitsCore 10 f n acc = Nat.toDigitsCore 10 g n acc := by
  induction f with
  | zero => intro g n acc h; omega
  | succ f ih =>
    intro g n acc hf hg
    cases g with
    | zero => omega
    | succ g =>
      simp only [Nat.toDigitsCore]
      split
      · rfl
      · exact ih g (n / 10) _ (by omega) (by omega)

theorem decimal_of_lt_ten {n : Nat} (h : n < 10) : decimal n = [Nat.digitChar n] := by
  have h0 : n / 10 = 0 := by omega
  have h1 : n % 10 = n := by omega
  simp [decimal, Nat.toDigits, Nat.toDigitsCore, h0, h1]

theorem decimal_of_ten_le {n : Nat} (h : 10 ≤ n) :
    decimal n = decimal (n / 10) ++ [Nat.digitChar (n % 10)] := by
  have h0 : n / 10 ≠ 0 := by omega
  have e : Nat.toDigitsCore 10 (n + 1) n [] =
      Nat.toDigitsCore 10 n (n / 10) [Nat.digitChar (n % 10)] := by
    simp only [Nat.toDigitsCore, h0, if_false]
  show Nat.toDigitsCore 10 (n + 1) n [] = Nat.toDigitsCore 10 (n / 10 + 1) (n / 10) [] ++ _
  rw [e, toDigitsCore_acc, toDigitsCore_fuel n (n / 10 + 1) (n / 10) [] (by omega) (by omega)]

theorem digitChar_isDigit {d : Nat} (h : d < 10) : (Nat.digitChar d).isDigit = true := by
  interval_cases d <;> decide

theorem decimal_ne_nil (n : Nat) : decimal n ≠ [] := by
  by_cases h : n < 10
  · simp [decimal_of_lt_ten h]
  · simp [decimal_of_ten_le (Nat.le_of_not_lt h)]

theorem decimal_isDigit (n : Nat) : ∀ c ∈ decimal n, c.isDigit = true := by
  induction n using Nat.strong_induction_on with
  | _ n ih =>
    intro c hc
    by_cases h : n < 10
    · rw [decimal_of_lt_ten h] at hc
      simp only [List.mem_singleton] at hc
      subst hc
      exact digitChar_isDigit h
    · rw [decimal_of_ten_le (Nat.le_of_not_lt h)] at hc
      simp only [List.mem_append, List.mem_singleton] at hc
      rcases hc with hc | hc
      · exact ih (n / 10) (by omega) c hc
      · subst hc
        exact digitChar_isDigit (Nat.mod_lt _ (by decide))

theorem decimal_length_le (k : Nat) : ∀ n : Nat, n < 10 ^ (k + 1) → (decimal n).length ≤ k + 1 := by
  induction k with
  | zero =>
    intro n h
    simp [decimal_of_lt_ten (show n < 10 by simpa using h)]
  | succ k ih =>
    intro n h
    by_cases h10 : n < 10
    · simp [decimal_of_lt_ten h10]
    · rw [decimal_of_ten_le (Nat.le_of_not_lt h10)]
      have : n / 10 < 10 ^ (k + 1) := by
        rw [Nat.div_lt_iff_lt_mul (by decide)]
        rw [pow_succ] at h
        exact h
      have := ih (n / 10) this
      simp only [List.length_append, List.length_singleton]
      omega

/-- A positive number's numeral starts with a digit other than zero. -/
theorem decimal_head_pos {n : Nat} (hn : 0 < n) :
    ∃ d rest, decimal n = Nat.digitChar d :: rest ∧ 0 < d ∧ d < 10 := by
  induction n using Nat.strong_induction_on with
  | _ n ih =>
    by_cases h : n < 10
    · exact ⟨n, [], decimal_of_lt_ten h, hn, h⟩
    · obtain ⟨d, rest, hd, h0, h9⟩ := ih (n / 10) (by omega) (by omega)
      refine ⟨d, rest ++ [Nat.digitChar (n % 10)], ?_, h0, h9⟩
      rw [decimal_of_ten_le (Nat.le_of_not_lt h), hd]
      rfl

/-! ## Facts about C strings and `snprintf` -/

theorem stdString_append_NUL (s rest : List Char) (hs : NUL ∉ s) :
    stdString (s ++ NUL :: rest) = s := by
  induction s with
  | nil => simp [stdString]
  | cons c s ih =>
    have hc : c ≠ NUL := fun h => hs (by simp [h])
    have hs2 : NUL ∉ s := fun h => hs (List.mem_cons_of_mem _ h)
    have := ih hs2
    simp only [stdString] at this
    simp [stdString, hc, this]

theorem isDigit_ne_NUL {c : Char} (h : c.isDigit = true) : c ≠ NUL := by
  rintro rfl
  exact absurd h (by decide)

theorem decimal_NUL_free (n : Nat) : NUL ∉ decimal n :=
  fun h => isDigit_ne_NUL (decimal_isDigit n NUL h) rfl

theorem vformat_version (a b c : Nat) :
    vformat "%lu.%lu.%lu".toList [a, b, c] =
      decimal (a % 2 ^ 32) ++ '.' :: (decimal (b % 2 ^ 32) ++ '.' :: decimal (c % 2 ^ 32)) := by
  simp [vformat, ULONG_WIDTH]

theorem decimal_ulong_length (a : Nat) : (decimal (a % 2 ^ 32)).length ≤ 10 :=
  decimal_length_le 9 _ (lt_of_lt_of_le (Nat.mod_lt _ (by decide)) (by decide))

/-- The dotted rendering of three `unsigned long` values. -/
theorem dotted_length (a b c : Nat) :
    (decimal (a % 2 ^ 32) ++ '.' :: (decimal (b % 2 ^ 32) ++ '.' :: decimal (c % 2 ^ 32))).length
      ≤ 32 := by
  have ha := decimal_ulong_length a
  have hb := decimal_ulong_length b
  have hc := decimal_ulong_length c
  simp only [List.length_append, List.length_cons]
  omega

theorem dotted_chars (a b c : Nat) :
    ∀ x ∈ decimal a ++ '.' :: (decimal b ++ '.' :: decimal c), x.isDigit = true ∨ x = '.' := by
  intro x hx
  simp only [List.mem_append, List.mem_cons] at hx
  rcases hx with h | h | h | h | h
  · exact Or.inl (decimal_isDigit a x h)
  · exact Or.inr h
  · exact Or.inl (decimal_isDigit b x h)
  · exact Or.inr h
  · exact Or.inl (decimal_isDigit c x h)

theorem dotted_NUL_free (a b c : Nat) :
    NUL ∉ decimal a ++ '.' :: (decimal b ++ '.' :: decimal c) := by
  intro h
  rcases dotted_chars a b c NUL h with h | h
  · exact isDigit_ne_NUL h rfl
  · exact absurd h (by decide)

/-- The successful path of the Windows body, without the buffer. -/
theorem windows_success (probe : Windows.GetVersionExOutcome) (h : probe.ret ≠ 0) :
    Windows.getOsVersion probe =
      decimal (probe.info.dwMajorVersion % 2 ^ 32) ++ '.' ::
        (decimal (probe.info.dwMinorVersion % 2 ^ 32) ++ '.' ::
          decimal (probe.info.dwBuildNumber % 2 ^ 32)) := by
  have hlen := dotted_length probe.info.dwMajorVersion probe.info.dwMinorVersion
    probe.info.dwBuildNumber
  have hnul := dotted_NUL_free (probe.info.dwMajorVersion % 2 ^ 32)
    (probe.info.dwMinorVersion % 2 ^ 32) (probe.info.dwBuildNumber % 2 ^ 32)
  simp only [Windows.getOsVersion, bne_iff_ne, ne_eq, h, not_false_eq_true, if_true, snprintf,
    List.length_replicate, vformat_version]
  rw [if_neg (by decide), List.take_of_length_le (by omega)]
  exact stdString_append_NUL _ _ hnul

theorem windows_failure (probe : Windows.GetVersionExOutcome) (h : probe.ret = 0) :
    Windows.getOsVersion probe = "unknown".toList := by
  simp [Windows.getOsVersion, h]

/-! ## Facts about reading a version string back -/

theorem splitOn_of_not_mem (sep : Char) (a : List Char) (ha : sep ∉ a) :
    splitOn sep a = [a] := by
  induction a with
  | nil => rfl
  | cons c a ih =>
    have hc : c ≠ sep := fun h => ha (by simp [h])
    have := ih (fun h => ha (List.mem_cons_of_mem _ h))
    simp [splitOn, hc, this]

theorem splitOn_append_sep (sep : Char) (a r : List Char) (ha : sep ∉ a) :
    splitOn sep (a ++ sep :: r) = a :: splitOn sep r := by
  induction a with
  | nil => simp [splitOn]
  | cons c a ih =>
    have hc : c ≠ sep := fun h => ha (by simp [h])
    have := ih (fun h => ha (List.mem_cons_of_mem _ h))
    simp [splitOn, hc, this]

theorem decimal_dot_free (n : Nat) : '.' ∉ decimal n :=
  fun h => absurd (decimal_isDigit n '.' h) (by decide)

theorem splitOn_dotted (a b c : Nat) :
    splitOn '.' (decimal a ++ '.' :: (decimal b ++ '.' :: decimal c)) =
      [decimal a, decimal b, decimal c] := by
  rw [splitOn_append_sep _ _ _ (decimal_dot_free a), splitOn_append_sep _ _ _ (decimal_dot_free b),
    splitOn_of_not_mem _ _ (decimal_dot_free c)]

theorem parseDecimalAux_snoc (s : List Char) : ∀ (acc : Nat) (c : Char),
    parseDecimalAux acc (s ++ [c]) =
      (parseDecimalAux acc s).bind
        (fun v => if c.isDigit then some (v * 10 + (c.toNat - 48)) else none) := by
  induction s with
  | nil =>
    intro acc c
    by_cases hc : c.isDigit = true <;> simp [parseDecimalAux, hc]
  | cons d s ih =>
    intro acc c
    by_cases hd : d.isDigit = true
    · simp [parseDecimalAux, hd, ih]
    · simp [parseDecimalAux, hd]

theorem digitChar_value {d : Nat} (h : d < 10) : (Nat.digitChar d).toNat - 48 = d := by
  interval_cases d <;> decide

theorem parseDecimalAux_decimal (n : Nat) : parseDecimalAux 0 (decimal n) = some n := by
  induction n using Nat.strong_induction_on with
  | _ n ih =>
    by_cases h : n < 10
    · simp [decimal_of_lt_ten h, parseDecimalAux, digitChar_isDigit h, digitChar_value h]
    · have hlt : n % 10 < 10 := Nat.mod_lt _ (by decide)
      rw [decimal_of_ten_le (Nat.le_of_not_lt h), parseDecimalAux_snoc, ih (n / 10) (by omega)]
      simp only [Option.some_bind, digitChar_isDigit hlt, if_true, digitChar_value hlt]
      congr 1
      omega

theorem parseDecimal_decimal (n : Nat) : parseDecimal (decimal n) = some n := by
  simp [parseDecimal, decimal_ne_nil, parseDecimalAux_decimal]

theorem decimal_injective {a b : Nat} (h : decimal a = decimal b) : a = b := by
  have := parseDecimal_decimal a
  rw [h, parseDecimal_decimal] at this
  exact (Option.some.inj this).symm

theorem digitChar_ne_zero {d : Nat} (h0 : 0 < d) (h : d < 10) : Nat.digitChar d ≠ '0' := by
  interval_cases d <;> decide

theorem noLeadingZero_decimal (n : Nat) : noLeadingZero (decimal n) = true := by
  rcases Nat.eq_zero_or_pos n with rfl | hn
  · decide
  · obtain ⟨d, rest, hd, h0, h9⟩ := decimal_head_pos hn
    simp [noLeadingZero, hd, digitChar_ne_zero h0 h9]

/-! ## The Unix body -/

/-- C1: in the Unix variant, a successful probe (`uname` returns 0) yields
exactly the release string, that is the characters of `utsname.release` before
its terminator, and a failed probe (any other return value) yields exactly
`unknown`; the body is a total function of the probe's outcome. -/
theorem unix_getOsVersion_contract (uname : Unix.UnameOutcome) :
    (uname.ret = 0 → ∀ s rest : List Char, uname.uts.release = s ++ NUL :: rest → NUL ∉ s →
      Unix.getOsVersion uname = s) ∧
    (uname.ret ≠ 0 → Unix.getOsVersion uname = "unknown".toList) := by
  constructor
  · intro h s rest hrel hs
    simp only [Unix.getOsVersion, h, beq_self_eq_true, if_true, hrel]
    exact stdString_append_NUL s rest hs
  · intro h
    simp [Unix.getOsVersion, h]

/-- C1 at a Linux host: release `6.8.0-45-generic` on success, `unknown` when
`uname` returns -1. -/
theorem unix_getOsVersion_contract_witness :
    Unix.getOsVersion ⟨0, ⟨[], [], "6.8.0-45-generic".toList ++ NUL :: ['x', 'y'], [], []⟩⟩
        = "6.8.0-45-generic".toList ∧
      Unix.getOsVersion ⟨-1, ⟨[], [], ['?', '?'], [], []⟩⟩ = "unknown".toList :=
  ⟨(unix_getOsVersion_contract
      ⟨0, ⟨[], [], "6.8.0-45-generic".toList ++ NUL :: ['x', 'y'], [], []⟩⟩).1 rfl
      "6.8.0-45-generic".toList ['x', 'y'] rfl (by decide),
    (unix_getOsVersion_contract ⟨-1, ⟨[], [], ['?', '?'], [], []⟩⟩).2 (by decide)⟩

/-- C10: in the Unix variant the sentinel is ambiguous: a successful probe
whose release is `unknown` returns what every failed probe returns, so no
function of the returned string tells success from failure. -/
theorem unix_sentinel_ambiguous :
    (∃ ok failed : Unix.UnameOutcome, ok.ret = 0 ∧ failed.ret ≠ 0 ∧
      stdString ok.uts.release = "unknown".toList ∧
      Unix.getOsVersion ok = Unix.getOsVersion failed) ∧
    ¬ ∃ succeeded : List Char → Bool,
      ∀ uname : Unix.UnameOutcome, succeeded (Unix.getOsVersion uname) = (uname.ret == 0) := by
  constructor
  · exact ⟨⟨0, ⟨[], [], "unknown".toList ++ [NUL], [], []⟩⟩, ⟨-1, ⟨[], [], [], [], []⟩⟩,
      rfl, by decide, by decide, by decide⟩
  · rintro ⟨f, hf⟩
    have h1 := hf ⟨0, ⟨[], [], "unknown".toList ++ [NUL], [], []⟩⟩
    have h2 := hf ⟨-1, ⟨[], [], [], [], []⟩⟩
    have e : Unix.getOsVersion ⟨0, ⟨[], [], "unknown".toList ++ [NUL], [], []⟩⟩ =
        Unix.getOsVersion ⟨-1, ⟨[], [], [], [], []⟩⟩ := by decide
    rw [e, h2] at h1
    exact absurd h1 (by decide)

/-! ## The Windows body -/

/-- C2: in the Windows variant, for 32-bit `major`, `minor`, `build` reported
by a successful `GetVersionEx`, the result is exactly
`decimal major ++ "." ++ decimal minor ++ "." ++ decimal build`, whole: it has
at most 32 characters, under the 63 the buffer can hold; a failed call yields
exactly `unknown`. -/
theorem windows_getOsVersion_format (ret : Int) (size major minor build : Nat)
    (hmajor : major < 2 ^ 32) (hminor : minor < 2 ^ 32) (hbuild : build < 2 ^ 32) :
    (ret ≠ 0 →
      Windows.getOsVersion ⟨ret, ⟨size, major, minor, build⟩⟩ =
        decimal major ++ ".".toList ++ decimal minor ++ ".".toList ++ decimal build ∧
      (Windows.getOsVersion ⟨ret, ⟨size, major, minor, build⟩⟩).length ≤ 32) ∧
    (ret = 0 → Windows.getOsVersion ⟨ret, ⟨size, major, minor, build⟩⟩ = "unknown".toList) := by
  constructor
  · intro h
    have hlen := dotted_length major minor build
    rw [windows_success _ h]
    simp only [Nat.mod_eq_of_lt hmajor, Nat.mod_eq_of_lt hminor, Nat.mod_eq_of_lt hbuild] at hlen ⊢
    refine ⟨by simp, hlen⟩
  · intro h
    exact windows_failure _ h

/-- C2 at Windows 10 build 19045, at the largest 32-bit triple, and at a
failed call. -/
theorem windows_getOsVersion_format_witness :
    Windows.getOsVersion ⟨1, ⟨284, 10, 0, 19045⟩⟩ = "10.0.19045".toList ∧
    (Windows.getOsVersion ⟨1, ⟨284, 4294967295, 4294967295, 4294967295⟩⟩).length ≤ 32 ∧
    Windows.getOsVersion ⟨0, ⟨284, 0, 0, 0⟩⟩ = "unknown".toList :=
  ⟨((windows_getOsVersion_format 1 284 10 0 19045 (by decide) (by decide) (by decide)).1
      (by decide)).1.trans (by decide),
    ((windows_getOsVersion_format 1 284 4294967295 4294967295 4294967295
      (by decide) (by decide) (by decide)).1 (by decide)).2,
    (windows_getOsVersion_format 0 284 0 0 0 (by decide) (by decide) (by decide)).2 rfl⟩

/-- C8: in the Windows variant the sentinel is unambiguous: the result is
`unknown` exactly when `GetVersionEx` failed, and every successful result is
made of the characters `0`..`9` and `.` only. -/
theorem windows_sentinel_unambiguous (probe : Windows.GetVersionExOutcome) :
    (Windows.getOsVersion probe = "unknown".toList ↔ probe.ret = 0) ∧
    (probe.ret ≠ 0 → ∀ c ∈ Windows.getOsVersion probe, c.isDigit = true ∨ c = '.') := by
  have key : probe.ret ≠ 0 → ∀ c ∈ Windows.getOsVersion probe, c.isDigit = true ∨ c = '.' := by
    intro h c hc
    rw [windows_success _ h] at hc
    exact dotted_chars _ _ _ c hc
  refine ⟨⟨fun h => ?_, windows_failure probe⟩, key⟩
  by_contra hne
  have hu : 'u' ∈ Windows.getOsVersion probe := by rw [h]; decide
  rcases key hne 'u' hu with h1 | h1
  · exact absurd h1 (by decide)
  · exact absurd h1 (by decide)

/-- C8 at Windows 10 build 19045: the result there is not `unknown` and holds
no letter. -/
theorem windows_sentinel_unambiguous_witness :
    Windows.getOsVersion ⟨1, ⟨284, 10, 0, 19045⟩⟩ ≠ "unknown".toList ∧
    ∀ c ∈ Windows.getOsVersion ⟨1, ⟨284, 10, 0, 19045⟩⟩, c.isDigit = true ∨ c = '.' :=
  ⟨fun h => absurd ((windows_sentinel_unambiguous ⟨1, ⟨284, 10, 0, 19045⟩⟩).1.mp h) (by decide),
    (windows_sentinel_unambiguous ⟨1, ⟨284, 10, 0, 19045⟩⟩).2 (by decide)⟩

/-- C9: in the Windows variant a successful result determines the version
numbers: for 32-bit `major`, `minor`, `build` the string splits at `.` into
exactly the three numerals, each non-empty and without a leading zero (the
numeral `0` apart), each parsing back to its number, and a second 32-bit
triple that yields the same string is the same triple. -/
theorem windows_version_determined (ret : Int) (size major minor build : Nat) (hret : ret ≠ 0)
    (hmajor : major < 2 ^ 32) (hminor : minor < 2 ^ 32) (hbuild : build < 2 ^ 32) :
    splitOn '.' (Windows.getOsVersion ⟨ret, ⟨size, major, minor, build⟩⟩) =
        [decimal major, decimal minor, decimal build] ∧
    (∀ f ∈ splitOn '.' (Windows.getOsVersion ⟨ret, ⟨size, major, minor, build⟩⟩),
      f ≠ [] ∧ noLeadingZero f = true) ∧
    (splitOn '.' (Windows.getOsVersion ⟨ret, ⟨size, major, minor, build⟩⟩)).map parseDecimal =
        [some major, some minor, some build] ∧
    (∀ (ret2 : Int) (size2 major2 minor2 build2 : Nat), ret2 ≠ 0 →
      major2 < 2 ^ 32 → minor2 < 2 ^ 32 → build2 < 2 ^ 32 →
      Windows.getOsVersion ⟨ret2, ⟨size2, major2, minor2, build2⟩⟩ =
        Windows.getOsVersion ⟨ret, ⟨size, major, minor, build⟩⟩ →
      major2 = major ∧ minor2 = minor ∧ build2 = build) := by
  have hsplit : splitOn '.' (Windows.getOsVersion ⟨ret, ⟨size, major, minor, build⟩⟩) =
      [decimal major, decimal minor, decimal build] := by
    rw [windows_success _ hret]
    simp only [Nat.mod_eq_of_lt hmajor, Nat.mod_eq_of_lt hminor, Nat.mod_eq_of_lt hbuild]
    exact splitOn_dotted major minor build
  refine ⟨hsplit, ?_, ?_, ?_⟩
  · intro f hf
    rw [hsplit] at hf
    simp only [List.mem_cons, List.mem_singleton, List.not_mem_nil, or_false] at hf
    rcases hf with rfl | rfl | rfl <;> exact ⟨decimal_ne_nil _, noLeadingZero_decimal _⟩
  · rw [hsplit]
    simp [parseDecimal_decimal]
  · intro ret2 size2 major2 minor2 build2 hret2 h1 h2 h3 heq
    have hsplit2 := congrArg (splitOn '.') heq
    rw [hsplit, windows_success _ hret2] at hsplit2
    simp only [Nat.mod_eq_of_lt h1, Nat.mod_eq_of_lt h2, Nat.mod_eq_of_lt h3] at hsplit2
    rw [splitOn_dotted] at hsplit2
    simp only [List.cons.injEq, and_true] at hsplit2
    exact ⟨decimal_injective hsplit2.1, decimal_injective hsplit2.2.1,
      decimal_injective hsplit2.2.2⟩

/-- C9 at Windows 10 build 19045: the string `10.0.19045` splits into `10`,
`0`, `19045` and reads back as (10, 0, 19045). -/
theorem windows_version_determined_witness :
    splitOn '.' (Windows.getOsVersion ⟨1, ⟨284, 10, 0, 19045⟩⟩) =
        ["10".toList, "0".toList, "19045".toList] ∧
    (splitOn '.' (Windows.getOsVersion ⟨1, ⟨284, 10, 0, 19045⟩⟩)).map parseDecimal =
        [some 10, some 0, some 19045] :=
  ⟨(windows_version_determined 1 284 10 0 19045 (by decide) (by decide) (by decide)
      (by decide)).1.trans (by decide),
    (windows_version_determined 1 284 10 0 19045 (by decide) (by decide) (by decide)
      (by decide)).2.2.1⟩

/-! ## Both bodies -/

/-- C3 as stated fails: a `uname` that succeeds and reports an empty release
makes the Unix variant return the empty string. -/
theorem getOsVersion_nonempty_counterexample :
    ¬ 1 ≤ (Unix.getOsVersion ⟨0, ⟨"Linux".toList ++ [NUL], [NUL], [NUL], [NUL], [NUL]⟩⟩).length := by
  decide

/-- C3, amended: the Windows variant never returns the empty string, whatever
`GetVersionEx` did; the Unix variant returns a non-empty string on a failed
probe, and on a successful probe exactly when the release it reports is
non-empty (its first character is not the terminator). -/
theorem getOsVersion_nonempty_amended :
    (∀ probe : Windows.GetVersionExOutcome, 1 ≤ (Windows.getOsVersion probe).length) ∧
    (∀ uname : Unix.UnameOutcome, uname.ret ≠ 0 → 1 ≤ (Unix.getOsVersion uname).length) ∧
    (∀ uname : Unix.UnameOutcome, uname.ret = 0 →
      (1 ≤ (Unix.getOsVersion uname).length ↔
        ∃ c rest, uname.uts.release = c :: rest ∧ c ≠ NUL)) := by
  refine ⟨fun probe => ?_, fun uname h => ?_, fun uname h => ?_⟩
  · by_cases h : probe.ret = 0
    · rw [windows_failure _ h]; decide
    · rw [windows_success _ h]
      have := List.length_pos.mpr (decimal_ne_nil (probe.info.dwMajorVersion % 2 ^ 32))
      simp only [List.length_append]
      omega
  · simp [Unix.getOsVersion, h]
  · simp only [Unix.getOsVersion, h, beq_self_eq_true, if_true, stdString]
    cases hrel : uname.uts.release with
    | nil => simp
    | cons c rest =>
      by_cases hc : c = NUL
      · simp [hc]
      · simp [hc]

/-- C3, amended, at three outcomes: a failed `GetVersionEx`, a failed `uname`
and a `uname` that reports release `6.1`. -/
theorem getOsVersion_nonempty_amended_witness :
    1 ≤ (Windows.getOsVersion ⟨0, ⟨284, 0, 0, 0⟩⟩).length ∧
    1 ≤ (Unix.getOsVersion ⟨-1, ⟨[], [], [], [], []⟩⟩).length ∧
    1 ≤ (Unix.getOsVersion ⟨0, ⟨[], [], ['6', '.', '1', NUL], [], []⟩⟩).length :=
  ⟨getOsVersion_nonempty_amended.1 ⟨0, ⟨284, 0, 0, 0⟩⟩,
    getOsVersion_nonempty_amended.2.1 ⟨-1, ⟨[], [], [], [], []⟩⟩ (by decide),
    (getOsVersion_nonempty_amended.2.2 ⟨0, ⟨[], [], ['6', '.', '1', NUL], [], []⟩⟩ rfl).mpr
      ⟨'6', ['.', '1', NUL], rfl, by decide⟩⟩

/-- C4 as stated fails: a `uname` that succeeds and reports the release
`generic` makes the Unix variant return a string without a digit. -/
theorem getOsVersion_digit_counterexample :
    (⟨0, ⟨[], [], "generic".toList ++ [NUL], [], []⟩⟩ : Unix.UnameOutcome).ret = 0 ∧
    hasDigit (Unix.getOsVersion ⟨0, ⟨[], [], "generic".toList ++ [NUL], [], []⟩⟩) = false := by
  decide

/-- C4, amended: on every successful probe the Windows variant returns a
string with at least one ASCII digit; on a successful probe the Unix variant
returns a string with a digit exactly when the release it reports holds
one. -/
theorem getOsVersion_digit_amended :
    (∀ probe : Windows.GetVersionExOutcome, probe.ret ≠ 0 →
      hasDigit (Windows.getOsVersion probe) = true) ∧
    (∀ (uname : Unix.UnameOutcome) (s rest : List Char), uname.ret = 0 →
      uname.uts.release = s ++ NUL :: rest → NUL ∉ s →
      (hasDigit (Unix.getOsVersion uname) = true ↔ ∃ c ∈ s, c.isDigit = true)) := by
  refine ⟨fun probe h => ?_, fun uname s rest h hrel hs => ?_⟩
  · rw [windows_success _ h]
    obtain ⟨c, hc⟩ := List.exists_mem_of_ne_nil _
      (decimal_ne_nil (probe.info.dwMajorVersion % 2 ^ 32))
    simp only [hasDigit, List.any_eq_true]
    exact ⟨c, List.mem_append_left _ hc, decimal_isDigit _ c hc⟩
  · simp only [Unix.getOsVersion, h, beq_self_eq_true, if_true, hrel,
      stdString_append_NUL s rest hs, hasDigit, List.any_eq_true]

/-- C4, amended, at Windows 10 build 19045 and at a Linux release. -/
theorem getOsVersion_digit_amended_witness :
    hasDigit (Windows.getOsVersion ⟨1, ⟨284, 10, 0, 19045⟩⟩) = true ∧
    hasDigit (Unix.getOsVersion ⟨0, ⟨[], [], "6.8.0-45-generic".toList ++ [NUL], [], []⟩⟩)
      = true :=
  ⟨getOsVersion_digit_amended.1 ⟨1, ⟨284, 10, 0, 19045⟩⟩ (by decide),
    (getOsVersion_digit_amended.2 ⟨0, ⟨[], [], "6.8.0-45-generic".toList ++ [NUL], [], []⟩⟩
      "6.8.0-45-generic".toList [] rfl rfl (by decide)).mpr ⟨'6', by decide, by decide⟩⟩

/-! ## The spec-modelled operations -/

theorem unifiedPath_idem (h : Host) (x : List Char) :
    unifiedPath h (unifiedPath h x) = unifiedPath h x := by
  simp only [unifiedPath, List.map_map]
  apply List.map_congr_left
  intro c _
  by_cases hc : h.isSeparator c = true
  · by_cases hs : h.isSeparator '/' = true <;> simp [hc, hs]
  · simp [hc]

/-- C5: `MemoryInfo.toString` is total and exact: for 64-bit `totalBytes` and
`freeBytes` it is `Total: <T> MB, Free: <F> MB` with `T` and `F` the decimal
numerals of the floor quotients by 1048576, so it contains `Total: <T> MB` and
`Free: <F> MB` and is never empty; 8 GiB and 4 GiB give `Total: 8192 MB` and
`Free: 4096 MB`, zero gives `Total: 0 MB` and `Free: 0 MB`, and the 64-bit
maximum gives a non-empty string. -/
theorem memoryInfo_toString_exact :
    (∀ totalBytes freeBytes : Nat, totalBytes < 2 ^ 64 → freeBytes < 2 ^ 64 →
      MemoryInfo.toString ⟨totalBytes, freeBytes⟩ =
          "Total: ".toList ++ decimal (totalBytes / 1048576) ++ " MB, Free: ".toList
            ++ decimal (freeBytes / 1048576) ++ " MB".toList ∧
      ("Total: ".toList ++ decimal (totalBytes / 1048576) ++ " MB".toList)
          <:+: MemoryInfo.toString ⟨totalBytes, freeBytes⟩ ∧
      ("Free: ".toList ++ decimal (freeBytes / 1048576) ++ " MB".toList)
          <:+: MemoryInfo.toString ⟨totalBytes, freeBytes⟩ ∧
      MemoryInfo.toString ⟨totalBytes, freeBytes⟩ ≠ [] ∧
      (MemoryInfo.toString ⟨totalBytes, freeBytes⟩).length ≤ 49) ∧
    ("Total: 8192 MB".toList <:+: MemoryInfo.toString ⟨8 * 2 ^ 30, 4 * 2 ^ 30⟩ ∧
      "Free: 4096 MB".toList <:+: MemoryInfo.toString ⟨8 * 2 ^ 30, 4 * 2 ^ 30⟩) ∧
    ("Total: 0 MB".toList <:+: MemoryInfo.toString ⟨0, 0⟩ ∧
      "Free: 0 MB".toList <:+: MemoryInfo.toString ⟨0, 0⟩) ∧
    MemoryInfo.toString ⟨2 ^ 64 - 1, (2 ^ 64 - 1) / 2⟩ ≠ [] := by
  refine ⟨fun t f ht hf => ⟨rfl, ?_, ?_, ?_, ?_⟩, ⟨?_, ?_⟩, ⟨?_, ?_⟩, by decide⟩
  · exact ⟨[], ", Free: ".toList ++ decimal (f / 1048576) ++ " MB".toList, by
      simp [MemoryInfo.toString]⟩
  · exact ⟨"Total: ".toList ++ decimal (t / 1048576) ++ " MB, ".toList, [], by
      simp [MemoryInfo.toString]⟩
  · simp [MemoryInfo.toString]
  · have h1 : (decimal (t / 1048576)).length ≤ 14 :=
      decimal_length_le 13 _ (by omega)
    have h2 : (decimal (f / 1048576)).length ≤ 14 :=
      decimal_length_le 13 _ (by omega)
    have e1 : "Total: ".toList.length = 7 := by decide
    have e2 : " MB, Free: ".toList.length = 11 := by decide
    have e3 : " MB".toList.length = 3 := by decide
    simp only [MemoryInfo.toString, List.length_append]
    omega
  · exact ⟨[], ", Free: 4096 MB".toList, by decide⟩
  · exact ⟨"Total: 8192 MB, ".toList, [], by decide⟩
  · exact ⟨[], ", Free: 0 MB".toList, by decide⟩
  · exact ⟨"Total: 0 MB, ".toList, [], by decide⟩

/-- C5 at 3 GiB total and 1.5 MiB free. -/
theorem memoryInfo_toString_exact_witness :
    MemoryInfo.toString ⟨3221225472, 1572864⟩ = "Total: 3072 MB, Free: 1 MB".toList :=
  (memoryInfo_toString_exact.1 3221225472 1572864 (by decide) (by decide)).1.trans (by decide)

/-- C7: `unifiedPath` is a lexical, idempotent normalization: applying it twice
is applying it once, the empty string stays empty, the output is as long as the
input, and at every position a host directory separator has become a forward
slash while any other character is unchanged. -/
theorem unifiedPath_normalization (h : Host) (x : List Char) :
    unifiedPath h (unifiedPath h x) = unifiedPath h x ∧
    unifiedPath h [] = [] ∧
    (unifiedPath h x).length = x.length ∧
    (∀ (i : Nat) (c : Char), x[i]? = some c →
      (h.isSeparator c = true → (unifiedPath h x)[i]? = some '/') ∧
      (h.isSeparator c = false → (unifiedPath h x)[i]? = some c)) := by
  refine ⟨unifiedPath_idem h x, rfl, by simp [unifiedPath], ?_⟩
  · intro i c hi
    constructor <;> intro hc <;> simp [unifiedPath, hi, hc]

/-- C6: set-then-get of the temp-directory override: for every path `P`,
prior override state and host (whether or not `P` names a directory there),
`tempFolder(P)` returns `unifiedPath(P)` and the `tempFolder()` that follows
returns the same value. -/
theorem tempFolder_set_then_get (h : Host) (P : List Char) (st : PlatformState) :
    (tempFolderSet h P st).1 = unifiedPath h P ∧
    tempFolder h (tempFolderSet h P st).2 = unifiedPath h P ∧
    tempFolder h (tempFolderSet h P st).2 = (tempFolderSet h P st).1 := by
  exact ⟨rfl, unifiedPath_idem h P, unifiedPath_idem h P⟩

/-- C7 on a Windows host: a path written with backslashes comes out as
`C:/Temp/neko`, a second pass changes nothing, and position 2 (a backslash)
holds a forward slash. -/
theorem unifiedPath_normalization_witness :
    unifiedPath windowsHost
        (unifiedPath windowsHost
          ("C:".toList ++ Char.ofNat 92 :: "Temp".toList ++ Char.ofNat 92 :: "neko".toList))
      = "C:/Temp/neko".toList ∧
    (unifiedPath windowsHost
        ("C:".toList ++ Char.ofNat 92 :: "Temp".toList ++ Char.ofNat 92 :: "neko".toList))[2]?
      = some '/' :=
  ⟨(unifiedPath_normalization windowsHost
      ("C:".toList ++ Char.ofNat 92 :: "Temp".toList ++ Char.ofNat 92 :: "neko".toList)).1.trans
      (by decide),
    ((unifiedPath_normalization windowsHost
      ("C:".toList ++ Char.ofNat 92 :: "Temp".toList ++ Char.ofNat 92 :: "neko".toList)).2.2.2
      2 (Char.ofNat 92) (by decide)).1 (by decide)⟩

/-- C6 on a Windows host with no override set: setting a path that names no
directory there returns it normalized, and so does the query that follows. -/
theorem tempFolder_set_then_get_witness :
    windowsHost.isDirectory ("D:".toList ++ Char.ofNat 92 :: "nowhere".toList) = false ∧
    (tempFolderSet windowsHost ("D:".toList ++ Char.ofNat 92 :: "nowhere".toList) ⟨none⟩).1
      = "D:/nowhere".toList ∧
    tempFolder windowsHost
        (tempFolderSet windowsHost ("D:".toList ++ Char.ofNat 92 :: "nowhere".toList) ⟨none⟩).2
      = "D:/nowhere".toList :=
  ⟨by decide,
    (tempFolder_set_then_get windowsHost ("D:".toList ++ Char.ofNat 92 :: "nowhere".toList)
      ⟨none⟩).1.trans (by decide),
    (tempFolder_set_then_get windowsHost ("D:".toList ++ Char.ofNat 92 :: "nowhere".toList)
      ⟨none⟩).2.1.trans (by decide)⟩

end NekoSystem
